import Mathlib

/-!
Verification of the ANN2 core: the `Layer` forward/backward unit
(src/src/Layer.cpp) and the polymorphic loss family with its factory
(src/experiments/loss.cpp).

Matrices are modelled as runtime-dimensioned dense arrays of elements of a
linear ordered field (the C++ code works on `arma::mat`, dense matrices of
doubles; we use exact field arithmetic).  Armadillo checks shape conformance
of its operations at runtime and aborts on mismatch, so the binary matrix
operations used by the code are embedded as `Except`-valued functions that
fail with `NnetError.shapeMismatch` exactly when Armadillo's conformance
check would fail.  The error type also carries the spec's `orderingError`
variant, which the code never raises.

The Activation and Optimizer collaborators are external to the core
(Activation.cpp / Optimizers.cpp are out of scope per the spec), so they are
modelled as abstract function records carried by the `Layer`.
-/

/-- Errors surfaced by the matrix kernel or by the layer.  The code itself
only ever produces `shapeMismatch` (Armadillo's runtime conformance check);
`orderingError` is the error class the spec assigns to calling `backward`
before `forward`. -/
inductive NnetError where
  | shapeMismatch
  | orderingError
  deriving DecidableEq

/-- A dense matrix with runtime row/column counts, entries given as a total
function (entries outside the bounds are irrelevant junk). -/
structure Mat (α : Type) where
  n_rows : ℕ
  n_cols : ℕ
  entry : ℕ → ℕ → α

/-- The default-constructed `arma::mat`: 0 × 0. -/
def Mat.empty {α : Type} [Zero α] : Mat α := ⟨0, 0, fun _ _ => 0⟩

/-- `arma::zeros<vec>(n)`: an n × 1 column vector of zeros. -/
def zerosVec {α : Type} [Zero α] (n : ℕ) : Mat α := ⟨n, 1, fun _ _ => 0⟩

/-- Transpose, `A.t()`. -/
def Mat.transpose {α : Type} (A : Mat α) : Mat α :=
  ⟨A.n_cols, A.n_rows, fun i j => A.entry j i⟩

/-- Elementwise map (used for Armadillo's elementwise `abs`, `pow`, `sqrt`,
`sign`, scalar arithmetic broadcast over a matrix, ...). -/
def Mat.map {α : Type} (A : Mat α) (f : α → α) : Mat α :=
  ⟨A.n_rows, A.n_cols, fun i j => f (A.entry i j)⟩

/-- `accu(A)`: sum of all elements. -/
def Mat.accu {α : Type} [AddCommMonoid α] (A : Mat α) : α :=
  ∑ i ∈ Finset.range A.n_rows, ∑ j ∈ Finset.range A.n_cols, A.entry i j

/-- The value of the matrix product `A * B` (defined for conforming shapes). -/
def matmulVal {α : Type} [Semiring α] (A B : Mat α) : Mat α :=
  ⟨A.n_rows, B.n_cols, fun i j => ∑ k ∈ Finset.range A.n_cols, A.entry i k * B.entry k j⟩

/-- `A * B` with Armadillo's conformance check. -/
def matmul {α : Type} [Semiring α] (A B : Mat α) : Except NnetError (Mat α) :=
  if A.n_cols = B.n_rows then .ok (matmulVal A B) else .error .shapeMismatch

/-- The value of the elementwise (Schur) product `A % B`. -/
def emulVal {α : Type} [Mul α] (A B : Mat α) : Mat α :=
  ⟨A.n_rows, A.n_cols, fun i j => A.entry i j * B.entry i j⟩

/-- `A % B` with Armadillo's same-size conformance check. -/
def emul {α : Type} [Mul α] (A B : Mat α) : Except NnetError (Mat α) :=
  if A.n_rows = B.n_rows ∧ A.n_cols = B.n_cols then .ok (emulVal A B)
  else .error .shapeMismatch

/-- The value of the elementwise difference `A - B`. -/
def subVal {α : Type} [Sub α] (A B : Mat α) : Mat α :=
  ⟨A.n_rows, A.n_cols, fun i j => A.entry i j - B.entry i j⟩

/-- `A - B` with Armadillo's same-size conformance check. -/
def msub {α : Type} [Sub α] (A B : Mat α) : Except NnetError (Mat α) :=
  if A.n_rows = B.n_rows ∧ A.n_cols = B.n_cols then .ok (subVal A B)
  else .error .shapeMismatch

/-- The value of `Z.each_col() += b`: add the column vector `b` to every
column of `Z`. -/
def eachColAddVal {α : Type} [Add α] (Z b : Mat α) : Mat α :=
  ⟨Z.n_rows, Z.n_cols, fun i j => Z.entry i j + b.entry i 0⟩

/-- `Z.each_col() += b` with Armadillo's conformance check (`b` must be a
column vector with as many rows as `Z`). -/
def eachColAdd {α : Type} [Add α] (Z b : Mat α) : Except NnetError (Mat α) :=
  if b.n_rows = Z.n_rows ∧ b.n_cols = 1 then .ok (eachColAddVal Z b)
  else .error .shapeMismatch

/-- External Activation collaborator: elementwise nonlinearity `eval` and its
derivative `grad` (both shape-preserving per the Activation contract). -/
structure Activation (α : Type) where
  eval : Mat α → Mat α
  grad : Mat α → Mat α

/-- External Optimizer collaborator: parameter update rules `updateW` and
`updateb`. -/
structure Optimizer (α : Type) where
  updateW : Mat α → Mat α → Mat α → Mat α
  updateb : Mat α → Mat α → Mat α

/-- The Layer state: weight matrix `W`, bias vector `b`, the caches `A_prev`
and `Z` filled by `forward`, and the owned Activation `g` and Optimizer `O`. -/
structure Layer (α : Type) where
  W : Mat α
  b : Mat α
  A_prev : Mat α
  Z : Mat α
  g : Activation α
  O : Optimizer α

/-- The Layer constructor: `W` is initialised from a random draw (passed in
here as `Winit`, since the RNG is external), `b = zeros(nodes_out)`, and the
caches are default-constructed 0 × 0 matrices. -/
def Layer.init {α : Type} [Zero α] (Winit : Mat α) (nodes_out : ℕ)
    (g : Activation α) (O : Optimizer α) : Layer α :=
  ⟨Winit, zerosVec nodes_out, Mat.empty, Mat.empty, g, O⟩

/-- `Layer::forward`: cache `X` in `A_prev`, set `Z = W * X` then
`Z.each_col() += b`, return `g->eval(Z)`.  The mutated layer is returned
alongside the result. -/
def Layer.forward {α : Type} [Semiring α] (l : Layer α) (X : Mat α) :
    Except NnetError (Mat α × Layer α) := do
  let Z0 ← matmul l.W X
  let Z ← eachColAdd Z0 l.b
  pure (l.g.eval Z, { l with A_prev := X, Z := Z })

/-- `Layer::backward`: `D = E % g->grad(Z).t()`, then `W = O->updateW(W, D,
A_prev)`, `b = O->updateb(b, D)`, and the return value is `D * W` computed
with the already-updated `W`. -/
def Layer.backward {α : Type} [Semiring α] (l : Layer α) (E : Mat α) :
    Except NnetError (Mat α × Layer α) := do
  let D ← emul E (l.g.grad l.Z).transpose
  let W := l.O.updateW l.W D l.A_prev
  let b := l.O.updateb l.b D
  let R ← matmul D W
  pure (R, { l with W := W, b := b })

/-- Concrete 1 × 1 rational weight matrix used by the concrete instantiations. -/
def W0 : Mat ℚ := ⟨1, 1, fun _ _ => 2⟩

/-- Concrete 1 × 1 bias vector. -/
def b0 : Mat ℚ := ⟨1, 1, fun _ _ => 3⟩

/-- Concrete 1 × 1 input matrix. -/
def X0 : Mat ℚ := ⟨1, 1, fun _ _ => 5⟩

/-- Concrete 1 × 1 incoming error matrix. -/
def E0 : Mat ℚ := ⟨1, 1, fun _ _ => 7⟩

/-- A concrete shape-preserving Activation (identity nonlinearity). -/
def idAct : Activation ℚ := ⟨id, id⟩

/-- A concrete Optimizer that returns the parameters unchanged. -/
def idOpt : Optimizer ℚ := ⟨fun W _ _ => W, fun b _ => b⟩

/-- A concrete 1-in/1-out layer whose caches have been filled by a forward
pass on `X0`. -/
def l0 : Layer ℚ := ⟨W0, b0, X0, X0, idAct, idOpt⟩

/-- Concrete 1 × 1 real matrix of zeros. -/
def Xr : Mat ℝ := ⟨1, 1, fun _ _ => 0⟩

/-- Concrete 1 × 1 real matrix of ones. -/
def Er : Mat ℝ := ⟨1, 1, fun _ _ => 1⟩

/-- Armadillo's scalar `sign`: −1, 0 or 1. -/
def asign {α : Type} [LinearOrderedField α] (x : α) : α :=
  if x < 0 then -1 else if 0 < x then 1 else 0

/-- Armadillo's scalar `clamp` into `[lo, hi]`: values below `lo` become
`lo`, values above `hi` become `hi`. -/
def clampVal {α : Type} [LinearOrderedField α] (lo hi x : α) : α :=
  min (max x lo) hi

/-- `find(y == 1)`: the column-major linear indices of the entries of `y`
equal to 1 (linear index `k` addresses row `k % n_rows`, column
`k / n_rows`). -/
def Mat.findEqOne {α : Type} [One α] [DecidableEq α] (y : Mat α) : List ℕ :=
  (List.range (y.n_rows * y.n_cols)).filter
    (fun k => y.entry (k % y.n_rows) (k / y.n_rows) = 1)

/-- `A.elem(idx)`: the elements of `A` at the given column-major linear
indices, with Armadillo's bounds check. -/
def Mat.elemList {α : Type} (A : Mat α) (idx : List ℕ) : Except NnetError (List α) :=
  if idx.all (fun k => k < A.n_rows * A.n_cols) then
    .ok (idx.map (fun k => A.entry (k % A.n_rows) (k / A.n_rows)))
  else .error .shapeMismatch

/-- `L(find p on E) = f(E(find p on E))`: overwrite the entries of `L` at the
positions where the same-shaped matrix `E` satisfies `p` with `f` of the
corresponding entry of `E` (the combined effect of Armadillo's
`find`/`elem`-assignment idiom used by the Huber loss). -/
def Mat.elemUpdate {α : Type} (L E : Mat α) (p : α → Prop) [DecidablePred p]
    (f : α → α) : Mat α :=
  ⟨L.n_rows, L.n_cols, fun i j => if p (E.entry i j) then f (E.entry i j) else L.entry i j⟩

/-- `std::numeric_limits<double>::min()`, the smallest positive normal
double, 2^(−1022), as an exact real. -/
noncomputable def dblMin : ℝ := 2 ^ (-(1022 : ℤ))

/-- `std::numeric_limits<double>::max()`, (2 − 2^(−52))·2^1023, as an exact
real. -/
noncomputable def dblMax : ℝ := (2 - 2 ^ (-(52 : ℤ))) * 2 ^ (1023 : ℕ)

/-- `logLoss::eval`: `-log` of the entries of `y_fit` selected at the
positions where `y` equals 1, clamped into `[dblMin, dblMax]`, summed and
divided by the row count of `y`. -/
noncomputable def logLoss_eval (y y_fit : Mat ℝ) : Except NnetError ℝ := do
  let s ← y_fit.elemList y.findEqOne
  let l := s.map (fun v => -Real.log v)
  let lc := l.map (clampVal dblMin dblMax)
  pure (lc.sum / y.n_rows)

/-- `logLoss::grad`: `y_fit - y`. -/
def logLoss_grad (y y_fit : Mat ℝ) : Except NnetError (Mat ℝ) :=
  msub y_fit y

/-- `squaredLoss::eval`: `accu(pow(y_fit - y, 2)) / y.n_rows`. -/
def squaredLoss_eval {α : Type} [LinearOrderedField α] (y y_fit : Mat α) :
    Except NnetError α := do
  let D ← msub y_fit y
  let l := D.map (fun e => e ^ 2)
  pure (l.accu / y.n_rows)

/-- `squaredLoss::grad`: `2 * (y_fit - y)`. -/
def squaredLoss_grad {α : Type} [LinearOrderedField α] (y y_fit : Mat α) :
    Except NnetError (Mat α) := do
  let D ← msub y_fit y
  pure (D.map (fun e => 2 * e))

/-- `absoluteLoss::eval`: `accu(abs(y_fit - y)) / y.n_rows`. -/
def absoluteLoss_eval {α : Type} [LinearOrderedField α] (y y_fit : Mat α) :
    Except NnetError α := do
  let D ← msub y_fit y
  let l := D.map (fun e => |e|)
  pure (l.accu / y.n_rows)

/-- `absoluteLoss::grad`: `sign(y_fit - y)`. -/
def absoluteLoss_grad {α : Type} [LinearOrderedField α] (y y_fit : Mat α) :
    Except NnetError (Mat α) := do
  let D ← msub y_fit y
  pure (D.map asign)

/-- `huberLoss::eval`: with `E = abs(y_fit - y)`, start from
`l = dHuber * (E - dHuber/2)` and overwrite `l` at `find(E <= dHuber)` with
`pow(E, 2) / 2`; result is `accu(l) / y.n_rows`. -/
def huberLoss_eval {α : Type} [LinearOrderedField α] (dHuber : α) (y y_fit : Mat α) :
    Except NnetError α := do
  let D ← msub y_fit y
  let E := D.map (fun e => |e|)
  let l := E.map (fun e => dHuber * (e - dHuber / 2))
  let l2 := Mat.elemUpdate l E (fun e => e ≤ dHuber) (fun e => e ^ 2 / 2)
  pure (l2.accu / y.n_rows)

/-- `huberLoss::grad`: with `E = y_fit - y`, start from
`dl = dHuber * sign(E)` and overwrite `dl` at `find(abs(E) <= dHuber)` with
`E`. -/
def huberLoss_grad {α : Type} [LinearOrderedField α] (dHuber : α) (y y_fit : Mat α) :
    Except NnetError (Mat α) := do
  let E ← msub y_fit y
  let dl := E.map (fun e => dHuber * asign e)
  pure (Mat.elemUpdate dl E (fun e => |e| ≤ dHuber) (fun e => e))

/-- `pseudoHuberLoss::eval`: `accu(sqrt(1 + pow((y_fit - y)/dHuber, 2)) - 1)
/ y.n_rows`. -/
noncomputable def pseudoHuberLoss_eval (dHuber : ℝ) (y y_fit : Mat ℝ) :
    Except NnetError ℝ := do
  let D ← msub y_fit y
  let l := D.map (fun e => Real.sqrt (1 + (e / dHuber) ^ 2) - 1)
  pure (l.accu / y.n_rows)

/-- `pseudoHuberLoss::grad`: with `E = y_fit - y`,
`E % (1 / sqrt(1 + pow(E/dHuber, 2)))`. -/
noncomputable def pseudoHuberLoss_grad (dHuber : ℝ) (y y_fit : Mat ℝ) :
    Except NnetError (Mat ℝ) := do
  let E ← msub y_fit y
  let G ← emul E (E.map (fun e => 1 / Real.sqrt (1 + (e / dHuber) ^ 2)))
  pure G

/-- The configuration consumed by the loss factory: the `type` string and
the `dHuber` hyperparameter slot read by the Huber-family constructors. -/
structure LossParam (α : Type) where
  type : String
  dHuber : α

/-- The concrete loss variants the factory can construct; the Huber family
carries its `dHuber` hyperparameter, fixed at construction. -/
inductive LossKind (α : Type) where
  | log
  | squared
  | absolute
  | huber (dHuber : α)
  | pseudoHuber (dHuber : α)
  deriving DecidableEq

/-- `lossFactory::createLoss`: dispatch on the `type` string; the fall-through
branch of the source returns `NULL`, embedded as `none`. -/
def createLoss {α : Type} (p : LossParam α) : Option (LossKind α) :=
  if p.type = "log" then some .log
  else if p.type = "squared" then some .squared
  else if p.type = "absolute" then some .absolute
  else if p.type = "huber" then some (.huber p.dHuber)
  else if p.type = "pseudoHuber" then some (.pseudoHuber p.dHuber)
  else none

/-- The virtual `eval` of the constructed loss object. -/
noncomputable def LossKind.evalLoss : LossKind ℝ → Mat ℝ → Mat ℝ → Except NnetError ℝ
  | .log => logLoss_eval
  | .squared => squaredLoss_eval
  | .absolute => absoluteLoss_eval
  | .huber d => huberLoss_eval d
  | .pseudoHuber d => pseudoHuberLoss_eval d

/-- The virtual `grad` of the constructed loss object. -/
noncomputable def LossKind.gradLoss : LossKind ℝ → Mat ℝ → Mat ℝ → Except NnetError (Mat ℝ)
  | .log => logLoss_grad
  | .squared => squaredLoss_grad
  | .absolute => absoluteLoss_grad
  | .huber d => huberLoss_grad d
  | .pseudoHuber d => pseudoHuberLoss_grad d

/-- Bind of a succeeded `Except` computation reduces. -/
theorem exceptOkBind {ε α β : Type} (a : α) (f : α → Except ε β) :
    (Except.ok (ε := ε) a >>= f) = f a := rfl

/-- `matmul` succeeds on conforming shapes. -/
theorem matmul_ok {α : Type} [Semiring α] (A B : Mat α) (h : A.n_cols = B.n_rows) :
    matmul A B = .ok (matmulVal A B) := by simp [matmul, h]

/-- `emul` succeeds on same-size matrices. -/
theorem emul_ok {α : Type} [Mul α] (A B : Mat α)
    (h1 : A.n_rows = B.n_rows) (h2 : A.n_cols = B.n_cols) :
    emul A B = .ok (emulVal A B) := by simp [emul, h1, h2]

/-- `emul` fails Armadillo's conformance check on different sizes. -/
theorem emul_err {α : Type} [Mul α] (A B : Mat α)
    (h : ¬(A.n_rows = B.n_rows ∧ A.n_cols = B.n_cols)) :
    emul A B = .error .shapeMismatch := by simp only [emul, if_neg h]

/-- `msub` succeeds on same-size matrices. -/
theorem msub_ok {α : Type} [Sub α] (A B : Mat α)
    (h1 : A.n_rows = B.n_rows) (h2 : A.n_cols = B.n_cols) :
    msub A B = .ok (subVal A B) := by simp [msub, h1, h2]

/-- `eachColAdd` succeeds when `b` is a conforming column vector. -/
theorem eachColAdd_ok {α : Type} [Add α] (Z b : Mat α)
    (h1 : b.n_rows = Z.n_rows) (h2 : b.n_cols = 1) :
    eachColAdd Z b = .ok (eachColAddVal Z b) := by simp [eachColAdd, h1, h2]

/-- C2: `forward(X)` caches `X` as `A_prev`, computes the pre-activation
`Z` with `Z i j = (Σ_k W i k * X k j) + b i` (bias added to every column of
`W·X`), caches `Z`, and returns `Activation.eval(Z)`. -/
theorem layer_forward_spec {α : Type} [LinearOrderedField α] (l : Layer α) (X : Mat α)
    (h1 : l.W.n_cols = X.n_rows) (h2 : l.b.n_rows = l.W.n_rows) (h3 : l.b.n_cols = 1) :
    l.forward X =
      .ok (l.g.eval ⟨l.W.n_rows, X.n_cols, fun i j =>
            (∑ k ∈ Finset.range l.W.n_cols, l.W.entry i k * X.entry k j) + l.b.entry i 0⟩,
        { l with
            A_prev := X,
            Z := ⟨l.W.n_rows, X.n_cols, fun i j =>
              (∑ k ∈ Finset.range l.W.n_cols, l.W.entry i k * X.entry k j) + l.b.entry i 0⟩ }) := by
  have h2' : l.b.n_rows = (matmulVal l.W X).n_rows := h2
  simp only [Layer.forward, matmul_ok l.W X h1, exceptOkBind,
    eachColAdd_ok (matmulVal l.W X) l.b h2' h3]
  rfl

/-- C1: `backward(E)` computes `D = E ⊙ grad(Z)ᵀ`, replaces `W` and `b` by
the Optimizer's returned updates, and returns `D · W` computed with the
post-update weight matrix. -/
theorem layer_backward_spec {α : Type} [LinearOrderedField α] (l : Layer α) (E : Mat α)
    (h1 : E.n_rows = (l.g.grad l.Z).n_cols) (h2 : E.n_cols = (l.g.grad l.Z).n_rows)
    (h3 : E.n_cols = (l.O.updateW l.W (emulVal E (l.g.grad l.Z).transpose) l.A_prev).n_rows) :
    l.backward E =
      .ok (matmulVal (emulVal E (l.g.grad l.Z).transpose)
             (l.O.updateW l.W (emulVal E (l.g.grad l.Z).transpose) l.A_prev),
        { l with
            W := l.O.updateW l.W (emulVal E (l.g.grad l.Z).transpose) l.A_prev,
            b := l.O.updateb l.b (emulVal E (l.g.grad l.Z).transpose) }) := by
  have h3' : (emulVal E (l.g.grad l.Z).transpose).n_cols =
      (l.O.updateW l.W (emulVal E (l.g.grad l.Z).transpose) l.A_prev).n_rows := h3
  simp only [Layer.backward, emul_ok E (l.g.grad l.Z).transpose h1 h2, exceptOkBind,
    matmul_ok _ _ h3']
  rfl

/-- Witness for C2 at the concrete layer `l0` and input `X0`. -/
theorem layer_forward_spec_witness :
    l0.W.n_cols = X0.n_rows ∧ l0.b.n_rows = l0.W.n_rows ∧ l0.b.n_cols = 1 ∧
    (l0.forward X0).isOk = true :=
  ⟨rfl, rfl, rfl, by rw [layer_forward_spec l0 X0 rfl rfl rfl]; rfl⟩

/-- Witness for C1 at the concrete layer `l0` and error matrix `E0`. -/
theorem layer_backward_spec_witness :
    E0.n_rows = (l0.g.grad l0.Z).n_cols ∧ E0.n_cols = (l0.g.grad l0.Z).n_rows ∧
    E0.n_cols = (l0.O.updateW l0.W (emulVal E0 (l0.g.grad l0.Z).transpose) l0.A_prev).n_rows ∧
    (l0.backward E0).isOk = true :=
  ⟨rfl, rfl, rfl, by rw [layer_backward_spec l0 E0 rfl rfl rfl]; rfl⟩

/-- C9: `forward` never changes `W`, `b` (nor the collaborators `g`, `O`) —
only the caches are overwritten — and `backward` changes `W` and `b` exactly
to the values returned by the Optimizer, leaving everything else intact. -/
theorem layer_state_frame {α : Type} [LinearOrderedField α] (l : Layer α) (X E : Mat α) :
    (l.forward X).map (fun p => (p.2.W, p.2.b, p.2.g, p.2.O)) =
      (l.forward X).map (fun _ => (l.W, l.b, l.g, l.O)) ∧
    (l.backward E).map (fun p => (p.2.W, p.2.b, p.2.A_prev, p.2.Z, p.2.g, p.2.O)) =
      (l.backward E).map (fun _ =>
        (l.O.updateW l.W (emulVal E (l.g.grad l.Z).transpose) l.A_prev,
         l.O.updateb l.b (emulVal E (l.g.grad l.Z).transpose), l.A_prev, l.Z, l.g, l.O)) := by
  constructor
  · simp only [Layer.forward, matmul, eachColAdd]
    split
    · simp only [exceptOkBind]
      split <;> rfl
    · rfl
  · simp only [Layer.backward, emul, matmul]
    split
    · simp only [exceptOkBind]
      split <;> rfl
    · rfl

/-- C3 (amended): `backward` performs no ordering check.  On a freshly
constructed layer the cache `Z` is the default 0 × 0 matrix, so as soon as
the incoming error matrix is nonempty the elementwise product
`E % g->grad(Z).t()` fails the matrix kernel's shape-conformance check: the
failure is a shape mismatch, not an ordering error. -/
theorem layer_backward_unchecked_ordering {α : Type} [LinearOrderedField α]
    (Winit : Mat α) (n : ℕ) (g : Activation α) (O : Optimizer α) (E : Mat α)
    (hg : (g.grad Mat.empty).n_cols = 0) (hE : E.n_rows ≠ 0) :
    (Layer.init Winit n g O).backward E = .error .shapeMismatch := by
  have h : ¬(E.n_rows = (((Layer.init Winit n g O).g.grad (Layer.init Winit n g O).Z).transpose).n_rows ∧
      E.n_cols = (((Layer.init Winit n g O).g.grad (Layer.init Winit n g O).Z).transpose).n_cols) := by
    intro hc
    exact hE (hc.1.trans hg)
  simp only [Layer.backward, emul_err _ _ h]
  rfl

/-- Witness for the amended C3 at a concrete fresh 1-in/1-out layer. -/
theorem layer_backward_unchecked_ordering_witness :
    ((idAct.grad Mat.empty).n_cols = 0) ∧ E0.n_rows ≠ 0 ∧
    (Layer.init W0 1 idAct idOpt).backward E0 = .error .shapeMismatch :=
  ⟨rfl, by decide,
    layer_backward_unchecked_ordering W0 1 idAct idOpt E0 rfl (by decide)⟩

/-- Counterexample to C3 as stated: on a fresh layer that never saw a
`forward` call, `backward` fails with the shape-mismatch error from the
matrix kernel, which is not an `orderingError`. -/
theorem layer_backward_fresh_counterexample :
    (Layer.init W0 1 idAct idOpt).backward E0 = .error NnetError.shapeMismatch ∧
    (Except.error NnetError.shapeMismatch : Except NnetError (Mat ℚ × Layer ℚ)) ≠
      .error NnetError.orderingError :=
  ⟨rfl, fun h => NnetError.noConfusion (Except.error.inj h)⟩

/-- `asign` of zero is zero. -/
theorem asign_zero {α : Type} [LinearOrderedField α] : asign (0 : α) = 0 := by
  simp [asign]

/-- `asign` only takes the values −1, 0 and 1. -/
theorem asign_cases {α : Type} [LinearOrderedField α] (x : α) :
    asign x = -1 ∨ asign x = 0 ∨ asign x = 1 := by
  unfold asign
  split_ifs <;> simp

/-- `asign` has absolute value at most 1. -/
theorem abs_asign_le_one {α : Type} [LinearOrderedField α] (x : α) :
    |asign x| ≤ 1 := by
  rcases asign_cases x with h | h | h <;> rw [h] <;> simp

/-- C8: `absoluteLoss.grad` is the elementwise `sign(y_fit - y)`, its values
lie in {−1, 0, 1}, and it is 0 wherever `y_fit` equals `y` exactly. -/
theorem absoluteLoss_grad_spec {α : Type} [LinearOrderedField α] (y y_fit : Mat α)
    (h1 : y_fit.n_rows = y.n_rows) (h2 : y_fit.n_cols = y.n_cols) :
    ∃ G, absoluteLoss_grad y y_fit = .ok G ∧
      G.n_rows = y_fit.n_rows ∧ G.n_cols = y_fit.n_cols ∧
      (∀ i j, G.entry i j = asign (y_fit.entry i j - y.entry i j)) ∧
      (∀ i j, G.entry i j = -1 ∨ G.entry i j = 0 ∨ G.entry i j = 1) ∧
      (∀ i j, y_fit.entry i j = y.entry i j → G.entry i j = 0) := by
  refine ⟨(subVal y_fit y).map asign, ?_, rfl, rfl, fun i j => rfl, ?_, ?_⟩
  · simp only [absoluteLoss_grad, msub_ok y_fit y h1 h2, exceptOkBind]
    rfl
  · intro i j
    exact asign_cases _
  · intro i j h
    show asign (y_fit.entry i j - y.entry i j) = 0
    rw [h, sub_self, asign_zero]

/-- Witness for C8 at the concrete matrices `X0` and `E0`. -/
theorem absoluteLoss_grad_spec_witness :
    E0.n_rows = X0.n_rows ∧ E0.n_cols = X0.n_cols ∧
    (absoluteLoss_grad X0 E0).isOk = true :=
  ⟨rfl, rfl, by
    obtain ⟨G, hG, -⟩ := absoluteLoss_grad_spec X0 E0 rfl rfl
    rw [hG]; rfl⟩

/-- C6: every entry of `huberLoss.grad` equals the signed error `E` where
`|E| <= dHuber` and `dHuber * sign(E)` otherwise, and the two branch
formulas agree at the boundary `|E| = dHuber` (continuity there). -/
theorem huberLoss_grad_spec {α : Type} [LinearOrderedField α] (dHuber : α)
    (hd : 0 < dHuber) (y y_fit : Mat α)
    (h1 : y_fit.n_rows = y.n_rows) (h2 : y_fit.n_cols = y.n_cols) :
    ∃ G, huberLoss_grad dHuber y y_fit = .ok G ∧
      G.n_rows = y_fit.n_rows ∧ G.n_cols = y_fit.n_cols ∧
      (∀ i j, G.entry i j =
        if |y_fit.entry i j - y.entry i j| ≤ dHuber then y_fit.entry i j - y.entry i j
        else dHuber * asign (y_fit.entry i j - y.entry i j)) ∧
      (∀ e : α, |e| = dHuber → e = dHuber * asign e) := by
  refine ⟨Mat.elemUpdate ((subVal y_fit y).map (fun e => dHuber * asign e))
      (subVal y_fit y) (fun e => |e| ≤ dHuber) (fun e => e), ?_, rfl, rfl,
      fun i j => rfl, ?_⟩
  · simp only [huberLoss_grad, msub_ok y_fit y h1 h2, exceptOkBind]
    rfl
  · intro e he
    rcases (abs_eq hd.le).mp he with h | h
    · subst h
      rw [asign, if_neg (not_lt.mpr hd.le), if_pos hd, mul_one]
    · subst h
      rw [asign, if_pos (neg_lt_zero.mpr hd), mul_neg_one]

/-- Witness for C6 at `dHuber = 1` and the concrete matrices `X0`, `E0`. -/
theorem huberLoss_grad_spec_witness :
    (0 : ℚ) < 1 ∧ E0.n_rows = X0.n_rows ∧ E0.n_cols = X0.n_cols ∧
    (huberLoss_grad 1 X0 E0).isOk = true :=
  ⟨by decide, rfl, rfl, by
    obtain ⟨G, hG, -⟩ := huberLoss_grad_spec 1 (by decide) X0 E0 rfl rfl
    rw [hG]; rfl⟩

/-- A matrix all of whose entries vanish has zero element sum. -/
theorem accu_eq_zero {α : Type} [LinearOrderedField α] (A : Mat α)
    (h : ∀ i j, A.entry i j = 0) : A.accu = 0 := by
  simp [Mat.accu, h]

/-- C7: with predictions exactly equal to targets, the squared, absolute,
Huber and pseudo-Huber losses all evaluate to exactly 0. -/
theorem loss_eval_self_zero (y : Mat ℝ) (dH dP : ℝ) (hd : 0 < dH) (_hd' : 0 < dP) :
    squaredLoss_eval y y = .ok 0 ∧ absoluteLoss_eval y y = .ok 0 ∧
    huberLoss_eval dH y y = .ok 0 ∧ pseudoHuberLoss_eval dP y y = .ok 0 := by
  have hsub : msub y y = .ok (subVal y y) := msub_ok y y rfl rfl
  refine ⟨?_, ?_, ?_, ?_⟩
  · simp only [squaredLoss_eval, hsub, exceptOkBind]
    rw [accu_eq_zero, zero_div]
    · rfl
    · intro i j
      simp [Mat.map, subVal]
  · simp only [absoluteLoss_eval, hsub, exceptOkBind]
    rw [accu_eq_zero, zero_div]
    · rfl
    · intro i j
      simp [Mat.map, subVal]
  · simp only [huberLoss_eval, hsub, exceptOkBind]
    rw [accu_eq_zero, zero_div]
    · rfl
    · intro i j
      simp [Mat.elemUpdate, Mat.map, subVal, hd.le]
  · simp only [pseudoHuberLoss_eval, hsub, exceptOkBind]
    rw [accu_eq_zero, zero_div]
    · rfl
    · intro i j
      simp [Mat.map, subVal, Real.sqrt_one]

/-- Witness for C7 at the concrete matrix `Xr` and `dHuber = 1`. -/
theorem loss_eval_self_zero_witness :
    (0 : ℝ) < 1 ∧ (0 : ℝ) < 1 ∧
    (squaredLoss_eval Xr Xr = .ok 0 ∧ absoluteLoss_eval Xr Xr = .ok 0 ∧
     huberLoss_eval 1 Xr Xr = .ok 0 ∧ pseudoHuberLoss_eval 1 Xr Xr = .ok 0) :=
  ⟨by norm_num, by norm_num, loss_eval_self_zero Xr 1 1 (by norm_num) (by norm_num)⟩

/-- The pseudo-Huber gradient formula is bounded by `d` in magnitude for
every real argument. -/
theorem pseudo_grad_entry_bound (d e : ℝ) (hd : 0 < d) :
    |e * (1 / Real.sqrt (1 + (e / d) ^ 2))| ≤ d := by
  have hspos : 0 < Real.sqrt (1 + (e / d) ^ 2) := Real.sqrt_pos.mpr (by positivity)
  have hdne : d ≠ 0 := hd.ne'
  have hfac : Real.sqrt (d ^ 2 + e ^ 2) = d * Real.sqrt (1 + (e / d) ^ 2) := by
    have hmul : d ^ 2 + e ^ 2 = d ^ 2 * (1 + (e / d) ^ 2) := by
      field_simp
    rw [hmul, Real.sqrt_mul (by positivity), Real.sqrt_sq hd.le]
  have hkey : |e| ≤ d * Real.sqrt (1 + (e / d) ^ 2) := by
    rw [← hfac]
    calc |e| = Real.sqrt (e ^ 2) := (Real.sqrt_sq_eq_abs e).symm
    _ ≤ Real.sqrt (d ^ 2 + e ^ 2) := Real.sqrt_le_sqrt (by nlinarith [sq_nonneg d])
  calc |e * (1 / Real.sqrt (1 + (e / d) ^ 2))|
      = |e| / Real.sqrt (1 + (e / d) ^ 2) := by
        rw [mul_one_div, abs_div, abs_of_pos hspos]
  _ ≤ d := (div_le_iff₀ hspos).mpr (by linarith [hkey])

/-- C10: every entry of the Huber gradient and of the pseudo-Huber gradient
has absolute value at most `dHuber`. -/
theorem huber_pseudo_grad_bounded (dHuber : ℝ) (hd : 0 < dHuber) (y y_fit : Mat ℝ)
    (h1 : y_fit.n_rows = y.n_rows) (h2 : y_fit.n_cols = y.n_cols) :
    ∃ G G', huberLoss_grad dHuber y y_fit = .ok G ∧
      pseudoHuberLoss_grad dHuber y y_fit = .ok G' ∧
      (∀ i j, |G.entry i j| ≤ dHuber) ∧ (∀ i j, |G'.entry i j| ≤ dHuber) := by
  refine ⟨Mat.elemUpdate ((subVal y_fit y).map (fun e => dHuber * asign e))
      (subVal y_fit y) (fun e => |e| ≤ dHuber) (fun e => e),
    emulVal (subVal y_fit y)
      ((subVal y_fit y).map (fun e => 1 / Real.sqrt (1 + (e / dHuber) ^ 2))),
    ?_, ?_, ?_, ?_⟩
  · simp only [huberLoss_grad, msub_ok y_fit y h1 h2, exceptOkBind]
    rfl
  · simp only [pseudoHuberLoss_grad, msub_ok y_fit y h1 h2, exceptOkBind]
    rw [emul_ok (subVal y_fit y)
      ((subVal y_fit y).map fun e => 1 / Real.sqrt (1 + (e / dHuber) ^ 2)) rfl rfl]
    rfl
  · intro i j
    simp only [Mat.elemUpdate, Mat.map, subVal]
    split_ifs with h
    · exact h
    · calc |dHuber * asign (y_fit.entry i j - y.entry i j)|
          = |dHuber| * |asign (y_fit.entry i j - y.entry i j)| := abs_mul _ _
      _ ≤ |dHuber| * 1 :=
          mul_le_mul_of_nonneg_left (abs_asign_le_one _) (abs_nonneg _)
      _ = dHuber := by rw [mul_one, abs_of_pos hd]
  · intro i j
    simp only [emulVal, Mat.map, subVal]
    exact pseudo_grad_entry_bound dHuber _ hd

/-- Witness for C10 at `dHuber = 1` and the concrete matrices `Xr`, `Er`. -/
theorem huber_pseudo_grad_bounded_witness :
    (0 : ℝ) < 1 ∧ Er.n_rows = Xr.n_rows ∧ Er.n_cols = Xr.n_cols ∧
    (huberLoss_grad (1 : ℝ) Xr Er).isOk = true ∧
    (pseudoHuberLoss_grad 1 Xr Er).isOk = true :=
  ⟨by norm_num, rfl, rfl,
    by
      obtain ⟨G, G', hG, hG', -, -⟩ := huber_pseudo_grad_bounded 1 (by norm_num) Xr Er rfl rfl
      rw [hG]; rfl,
    by
      obtain ⟨G, G', hG, hG', -, -⟩ := huber_pseudo_grad_bounded 1 (by norm_num) Xr Er rfl rfl
      rw [hG']; rfl⟩

/-- C4: the factory constructs exactly the variant named by the `type`
field for each of the five recognized names; the squared variant's `eval`
and `grad` are the §4.1 formulas; every other `type` string makes
`createLoss` return no loss (the source's `NULL` fall-through). -/
theorem createLoss_spec (d : ℝ) (t : String) (y y_fit : Mat ℝ)
    (h1 : y_fit.n_rows = y.n_rows) (h2 : y_fit.n_cols = y.n_cols) :
    createLoss ⟨"log", d⟩ = some .log ∧
    createLoss ⟨"squared", d⟩ = some .squared ∧
    createLoss ⟨"absolute", d⟩ = some .absolute ∧
    createLoss ⟨"huber", d⟩ = some (.huber d) ∧
    createLoss ⟨"pseudoHuber", d⟩ = some (.pseudoHuber d) ∧
    LossKind.evalLoss .squared y y_fit =
      .ok ((∑ i ∈ Finset.range y_fit.n_rows, ∑ j ∈ Finset.range y_fit.n_cols,
        (y_fit.entry i j - y.entry i j) ^ 2) / (y.n_rows : ℝ)) ∧
    (∃ G, LossKind.gradLoss .squared y y_fit = .ok G ∧
      G.n_rows = y_fit.n_rows ∧ G.n_cols = y_fit.n_cols ∧
      ∀ i j, G.entry i j = 2 * (y_fit.entry i j - y.entry i j)) ∧
    (t ∉ (["log", "squared", "absolute", "huber", "pseudoHuber"] : List String) →
      createLoss ⟨t, d⟩ = none) := by
  refine ⟨rfl, rfl, rfl, rfl, rfl, ?_, ?_, ?_⟩
  · simp only [LossKind.evalLoss, squaredLoss_eval, msub_ok y_fit y h1 h2, exceptOkBind]
    rfl
  · refine ⟨(subVal y_fit y).map (fun e => 2 * e), ?_, rfl, rfl, fun i j => rfl⟩
    simp only [LossKind.gradLoss, squaredLoss_grad, msub_ok y_fit y h1 h2, exceptOkBind]
    rfl
  · intro h
    simp only [List.mem_cons, List.not_mem_nil, or_false, not_or] at h
    obtain ⟨n1, n2, n3, n4, n5⟩ := h
    simp [createLoss, n1, n2, n3, n4, n5]

/-- Witness for C4 at the concrete matrices `Xr`, `Er`, `dHuber = 0` and the
unrecognized type string of §8. -/
theorem createLoss_spec_witness :
    Er.n_rows = Xr.n_rows ∧ Er.n_cols = Xr.n_cols ∧
    createLoss ⟨"bogus", (0 : ℝ)⟩ = none ∧
    createLoss ⟨"squared", (0 : ℝ)⟩ = some .squared :=
  ⟨rfl, rfl,
    (createLoss_spec 0 "bogus" Xr Er rfl rfl).2.2.2.2.2.2.2 (by decide),
    (createLoss_spec 0 "bogus" Xr Er rfl rfl).2.1⟩

/-- Summing a mapped filtered index list equals the Finset sum over the
filtered range. -/
theorem listSum_filter_range (n : ℕ) (q : ℕ → Prop) [DecidablePred q] (f : ℕ → ℝ) :
    (((List.range n).filter (fun k => q k)).map f).sum
      = ∑ k ∈ (Finset.range n).filter q, f k := rfl

/-- Re-index a sum over column-major linear indices below `r * c` as a sum
over the (row, column) pairs they decode to. -/
theorem sum_mod_div_reindex (r c : ℕ) (q : ℕ → ℕ → Prop) [∀ i j, Decidable (q i j)]
    (f : ℕ → ℕ → ℝ) :
    ∑ k ∈ (Finset.range (r * c)).filter (fun k => q (k % r) (k / r)), f (k % r) (k / r)
      = ∑ p ∈ (Finset.range r ×ˢ Finset.range c).filter (fun p => q p.1 p.2), f p.1 p.2 := by
  rcases Nat.eq_zero_or_pos r with hr | hr
  · subst hr
    simp
  · refine Finset.sum_nbij' (fun k => (k % r, k / r)) (fun p => p.1 + r * p.2) ?_ ?_ ?_ ?_ ?_
    · intro k hk
      simp only [Finset.mem_filter, Finset.mem_range] at hk
      simp only [Finset.mem_filter, Finset.mem_product, Finset.mem_range]
      exact ⟨⟨Nat.mod_lt _ hr, Nat.div_lt_of_lt_mul hk.1⟩, hk.2⟩
    · intro p hp
      simp only [Finset.mem_filter, Finset.mem_product, Finset.mem_range] at hp
      simp only [Finset.mem_filter, Finset.mem_range]
      have hlt : p.1 + r * p.2 < r * c := by
        calc p.1 + r * p.2 < r + r * p.2 := by omega
        _ = r * (p.2 + 1) := by ring
        _ ≤ r * c := Nat.mul_le_mul_left r hp.1.2
      have hmod : (p.1 + r * p.2) % r = p.1 := by
        rw [Nat.add_mul_mod_self_left, Nat.mod_eq_of_lt hp.1.1]
      have hdiv : (p.1 + r * p.2) / r = p.2 := by
        rw [Nat.add_mul_div_left _ _ hr, Nat.div_eq_of_lt hp.1.1, Nat.zero_add]
      exact ⟨hlt, by rw [hmod, hdiv]; exact hp.2⟩
    · intro k _
      exact Nat.mod_add_div k r
    · intro p hp
      simp only [Finset.mem_filter, Finset.mem_product, Finset.mem_range] at hp
      have hmod : (p.1 + r * p.2) % r = p.1 := by
        rw [Nat.add_mul_mod_self_left, Nat.mod_eq_of_lt hp.1.1]
      have hdiv : (p.1 + r * p.2) / r = p.2 := by
        rw [Nat.add_mul_div_left _ _ hr, Nat.div_eq_of_lt hp.1.1, Nat.zero_add]
      show ((p.1 + r * p.2) % r, (p.1 + r * p.2) / r) = p
      rw [hmod, hdiv]
    · intro k _
      rfl

/-- C5: `logLoss.eval` takes `-log` of exactly the entries of `y_fit` at the
positions where the matching entry of `y` equals 1, clamps each value into
`[dblMin, dblMax]`, sums the clamped values and divides by the row count of
`y`. -/
theorem logLoss_eval_spec (y y_fit : Mat ℝ)
    (h1 : y_fit.n_rows = y.n_rows) (h2 : y_fit.n_cols = y.n_cols) :
    logLoss_eval y y_fit =
      .ok ((∑ p ∈ (Finset.range y.n_rows ×ˢ Finset.range y.n_cols).filter
            (fun p => y.entry p.1 p.2 = 1),
          clampVal dblMin dblMax (-Real.log (y_fit.entry p.1 p.2))) / (y.n_rows : ℝ)) := by
  have hall : (y.findEqOne.all fun k => k < y_fit.n_rows * y_fit.n_cols) = true := by
    simp only [List.all_eq_true, decide_eq_true_eq]
    intro k hk
    rw [h1, h2]
    simp only [Mat.findEqOne, List.mem_filter, List.mem_range] at hk
    exact hk.1
  have helem : y_fit.elemList y.findEqOne =
      .ok (y.findEqOne.map (fun k => y_fit.entry (k % y_fit.n_rows) (k / y_fit.n_rows))) := by
    rw [Mat.elemList.eq_def, if_pos hall]
  have hAB : (((y.findEqOne.map
        (fun k => y_fit.entry (k % y_fit.n_rows) (k / y_fit.n_rows))).map
        (fun v => -Real.log v)).map (clampVal dblMin dblMax)).sum
      = ∑ p ∈ (Finset.range y.n_rows ×ˢ Finset.range y.n_cols).filter
          (fun p => y.entry p.1 p.2 = 1),
        clampVal dblMin dblMax (-Real.log (y_fit.entry p.1 p.2)) := by
    rw [List.map_map, List.map_map, h1]
    simp only [Mat.findEqOne]
    exact (listSum_filter_range (y.n_rows * y.n_cols)
        (fun k => y.entry (k % y.n_rows) (k / y.n_rows) = 1)
        (fun k => clampVal dblMin dblMax
          (-Real.log (y_fit.entry (k % y.n_rows) (k / y.n_rows))))).trans
      (sum_mod_div_reindex y.n_rows y.n_cols (fun i j => y.entry i j = 1)
        (fun i j => clampVal dblMin dblMax (-Real.log (y_fit.entry i j))))
  simp only [logLoss_eval, helem, exceptOkBind]
  rw [hAB]
  rfl

/-- Witness for C5 at the concrete all-ones matrix `Er`. -/
theorem logLoss_eval_spec_witness :
    Er.n_rows = Er.n_rows ∧ Er.n_cols = Er.n_cols ∧
    (logLoss_eval Er Er).isOk = true :=
  ⟨rfl, rfl, by rw [logLoss_eval_spec Er Er rfl rfl]; rfl⟩
